import Mathlib

/- Verification of the kwyjibo-dos selection and progression engine.

   This file gives a shallow embedding, in Lean 4, of the core of the
   repository: the song library (SongLibrary.ts), the key progression and
   harmonic compatibility model (KeyManager.ts), the quantum random source
   with cache and cryptographic fallback (QuantumRandom.ts), and the
   stateful track selector (SongSelector.ts).  JavaScript numbers are
   modelled as dyadic rationals (IEEE-754 binary64 values are dyadic), with
   an explicit round-to-nearest-ties-to-even rounding function; lists model
   JS arrays; the played-id Set is modelled as an insertion-ordered
   duplicate-free list.  Asynchronous background cache refill is not part of
   the model: the source never awaits it on the consuming path, so the
   synchronous semantics of each call is unaffected by it.

   Theorems named cN_... settle the corresponding claims. -/

namespace Kwyjibo

/- ===================== KeyManager.ts ===================== -/

/-- The HARMONIC_SCORES table from KeyManager.ts, row `a` (1-based) listing
    the compatibility scores of key `a` against keys 1..12. -/
def HARMONIC_SCORES : List (List ℕ) :=
  [ [10, 7, 5, 3, 2, 1, 2, 9, 6, 4, 3, 8]
  , [7, 10, 8, 6, 4, 2, 1, 3, 9, 7, 5, 4]
  , [5, 8, 10, 9, 7, 4, 2, 1, 4, 9, 8, 6]
  , [3, 6, 9, 10, 9, 7, 4, 2, 1, 5, 9, 8]
  , [2, 4, 7, 9, 10, 9, 7, 4, 2, 1, 6, 9]
  , [1, 2, 4, 7, 9, 10, 9, 7, 4, 2, 1, 5]
  , [2, 1, 2, 4, 7, 9, 10, 9, 7, 4, 2, 1]
  , [9, 3, 1, 2, 4, 7, 9, 10, 9, 7, 4, 2]
  , [6, 9, 4, 1, 2, 4, 7, 9, 10, 9, 7, 4]
  , [4, 7, 9, 5, 1, 2, 4, 7, 9, 10, 9, 7]
  , [3, 5, 8, 9, 6, 1, 2, 4, 7, 9, 10, 9]
  , [8, 4, 6, 8, 9, 5, 1, 2, 4, 7, 9, 10] ]

/-- KeyManager.scoreCompatibility: pure lookup in HARMONIC_SCORES.  Keys are
    1-based; out-of-range keys (a caller contract violation in the source,
    where the lookup would be undefined) yield 0 here. -/
def scoreCompatibility (fromKey toKey : ℕ) : ℕ :=
  ((HARMONIC_SCORES.getD (fromKey - 1) []).getD (toKey - 1) 0)

/-- KeyManager.next / peekNext step: forward maps 12 to 1 and otherwise adds
    one; reverse maps 1 to 12 and otherwise subtracts one.  `forward = true`
    is the "forward" direction. -/
def nextKey (k : ℕ) (forward : Bool) : ℕ :=
  if forward then (if k = 12 then 1 else k + 1)
  else (if k = 1 then 12 else k - 1)

/-- Stable insertion used by `stableSort`: place `x` before the first element
    `y` it must strictly precede (`lt x y`), after all earlier ties. -/
def stableInsert (lt : α → α → Bool) (x : α) : List α → List α
  | [] => [x]
  | y :: ys => if lt x y then x :: y :: ys else y :: stableInsert lt x ys

/-- Model of ES2019 Array.prototype.sort with a consistent comparator: the
    result is sorted with respect to the comparator and stable (elements that
    compare equal keep their original relative order).  `lt x y` means the
    comparator puts `x` strictly before `y`. -/
def stableSort (lt : α → α → Bool) (l : List α) : List α :=
  l.foldl (fun acc x => stableInsert lt x acc) []

/-- KeyManager.getCompatibleKeys: all 12 keys sorted by descending
    compatibility score against `fromKey` (ES sort is stable, so ties keep
    the ascending 1..12 input order). -/
def getCompatibleKeys (fromKey : ℕ) : List ℕ :=
  stableSort (fun a b => scoreCompatibility fromKey b < scoreCompatibility fromKey a)
    [1, 2, 3, 4, 5, 6, 7, 8, 9, 10, 11, 12]

/- ===================== SongLibrary.ts ===================== -/

/-- A song record from the library (types.ts `Song`).  Ids are modelled as
    integers (JS numbers; validation elsewhere requires them positive). -/
structure Song where
  id : ℤ
  artist : String
  title : String
  key : ℕ
  bpm : ℕ
deriving DecidableEq, Repr

/-- Filter criteria (types.ts `SongFilter`); omitted criteria are `none`. -/
structure SongFilter where
  tempo : Option ℕ := none
  key : Option ℕ := none
  artist : Option String := none
  excludeIds : Option (List ℤ) := none

/-- SongLibrary.filter: AND-combination of the provided criteria, applied in
    the source's order; an empty excludeIds list is a no-op (the source
    guards on `excludeIds.length > 0`). -/
def filterSongs (allSongs : List Song) (f : SongFilter) : List Song :=
  let r := allSongs
  let r := match f.tempo with
    | some t => r.filter (fun s => s.bpm == t)
    | none => r
  let r := match f.key with
    | some k => r.filter (fun s => s.key == k)
    | none => r
  let r := match f.artist with
    | some a => r.filter (fun s => s.artist == a)
    | none => r
  match f.excludeIds with
  | some ids => if 0 < ids.length then r.filter (fun s => !(ids.contains s.id)) else r
  | none => r

/-- Idempotent insertion into the played-id set; a JS `Set` is modelled as a
    duplicate-free list in insertion order. -/
def setAdd (s : List ℤ) (x : ℤ) : List ℤ :=
  if x ∈ s then s else s ++ [x]

/-- SongLibrary.markPlayed. -/
def markPlayed (played : List ℤ) (songId : ℤ) : List ℤ :=
  setAdd played songId

/-- SongLibrary.markManyPlayed. -/
def markManyPlayed (played : List ℤ) (songIds : List ℤ) : List ℤ :=
  songIds.foldl setAdd played

/-- SongLibrary.getUnplayed: filter with the played ids as excludeIds. -/
def getUnplayed (allSongs : List Song) (played : List ℤ) (f : SongFilter) : List Song :=
  filterSongs allSongs { f with excludeIds := some played }

/-- The ids present in the track list. -/
def songIds (allSongs : List Song) : List ℤ :=
  allSongs.map (fun s => s.id)

/-- A mutating operation on the library's played-id set. -/
inductive LibOp where
  | markPlayed (id : ℤ)
  | markManyPlayed (ids : List ℤ)
  | reset
deriving DecidableEq, Repr

/-- Apply one library operation to the played-id set (SongLibrary.markPlayed,
    markManyPlayed, reset). -/
def applyLibOp (played : List ℤ) : LibOp → List ℤ
  | .markPlayed id => markPlayed played id
  | .markManyPlayed ids => markManyPlayed played ids
  | .reset => []

/-- Run a sequence of library operations from the initial empty played set. -/
def runLibOps (ops : List LibOp) : List ℤ :=
  ops.foldl applyLibOp []

/-- The id arguments an operation inserts. -/
def libOpIds : LibOp → List ℤ
  | .markPlayed id => [id]
  | .markManyPlayed ids => ids
  | .reset => []

/- ===================== QuantumRandom.ts ===================== -/

/-- A hexadecimal digit of the entropy cache. -/
abbrev Hex := Fin 16

/-- State of the QuantumRandom instance: the in-memory hex cache, the
    mirrored localStorage value, and the cryptographic fallback generator
    modelled as a byte stream with a read position (crypto.getRandomValues
    fills from this stream).  The background API refill is fire-and-forget
    in the source and never awaited on the consuming path, so it is not part
    of the synchronous call semantics modelled here. -/
structure QState where
  cache : List Hex
  storage : Option (List Hex)
  bytes : ℕ → Fin 256
  pos : ℕ

/-- One byte rendered as two hex digits (byte.toString(16).padStart(2,'0')). -/
def byteToHexPair (b : Fin 256) : List Hex :=
  [⟨b.val / 16, by omega⟩, ⟨b.val % 16, by omega⟩]

/-- The hex expansion of `n` consecutive fallback bytes starting at `pos`. -/
def cryptoChars (bytes : ℕ → Fin 256) (pos : ℕ) : ℕ → List Hex
  | 0 => []
  | n + 1 => byteToHexPair (bytes pos) ++ cryptoChars bytes (pos + 1) n

/-- QuantumRandom.getCryptoHex: draw ceil(len/2) random bytes, render each as
    two hex digits, and truncate to `len` characters. -/
def getCryptoHex (q : QState) (len : ℕ) : List Hex × QState :=
  let nBytes := (len + 1) / 2
  ((cryptoChars q.bytes q.pos nBytes).take len, { q with pos := q.pos + nBytes })

/-- QuantumRandom.ensureCacheSize: if the cache is short of `needed`
    characters, synthesize exactly the shortfall from the crypto fallback and
    append it after the existing cached characters. -/
def ensureCacheSize (q : QState) (needed : ℕ) : QState :=
  if needed ≤ q.cache.length then q
  else { (getCryptoHex q (needed - q.cache.length)).2 with
         cache := q.cache ++ (getCryptoHex q (needed - q.cache.length)).1 }

/-- QuantumRandom.saveCacheToStorage: mirror a non-empty cache to storage. -/
def saveCacheToStorage (q : QState) : QState :=
  if 0 < q.cache.length then { q with storage := some q.cache } else q

/-- QuantumRandom.getHexadecimal: fail on non-positive length; otherwise top
    the cache up to `len` characters if needed, consume the first `len`
    characters and keep the remaining suffix, then persist.  (Negative
    lengths are collapsed to 0 by the ℕ model; the source rejects
    `length <= 0` identically.) -/
def getHexadecimal (len : ℕ) (q : QState) : Except String (List Hex × QState) :=
  if len = 0 then .error "length must be positive"
  else
    .ok ((ensureCacheSize q len).cache.take len,
      saveCacheToStorage
        { ensureCacheSize q len with cache := (ensureCacheSize q len).cache.drop len })

/-- A concrete 1-character cache state used to witness c10_hexadecimal_fifo. -/
def qShortCache : QState :=
  { cache := [(1 : Hex)], storage := none, bytes := fun _ => (171 : Fin 256), pos := 0 }

/- ===================== JS number model (IEEE-754 binary64) ===================== -/

/-- A dyadic rational m * 2^e.  Every finite IEEE-754 binary64 value is of
    this form; the representation is not unique, so value comparisons go
    through `Dy.eqb` and friends. -/
structure Dy where
  m : ℤ
  e : ℤ
deriving DecidableEq, Repr

/-- Floor of the base-2 logarithm via a fuel-driven halving loop (the fuel
    argument only forces termination; it is never exhausted for fuel >= n). -/
def natLog2Go : ℕ → ℕ → ℕ
  | 0, _ => 0
  | fuel + 1, n => if n < 2 then 0 else natLog2Go fuel (n / 2) + 1

/-- Floor of log2 for positive naturals (0 for inputs 0 and 1). -/
def natLog2 (n : ℕ) : ℕ := natLog2Go n n

/-- Round a/b (b positive) to the nearest natural, ties to even. -/
def roundTiesEvenDiv (a b : ℕ) : ℕ :=
  let q := a / b
  let r := a % b
  if 2 * r < b then q else if b < 2 * r then q + 1 else if q % 2 = 0 then q else q + 1

/-- Round an exact dyadic value to the nearest IEEE-754 binary64 value
    (round-to-nearest, ties to even, 53-bit significand).  Overflow to
    infinity and subnormal underflow are not modelled: every value arising in
    these claims lies well inside the normal range. -/
def roundDouble (x : Dy) : Dy :=
  if x.m = 0 then ⟨0, 0⟩
  else
    let s := x.m.natAbs
    let sign : ℤ := if x.m < 0 then -1 else 1
    let eVal : ℤ := (natLog2 s : ℤ) + x.e
    let shift : ℤ := 52 - (natLog2 s : ℤ)
    let mant : ℕ :=
      if 0 ≤ shift then s * 2 ^ shift.toNat
      else roundTiesEvenDiv s (2 ^ (-shift).toNat)
    ⟨sign * mant, eVal - 52⟩

/-- Exact sum of two dyadic values (before rounding). -/
def Dy.addExact (a b : Dy) : Dy :=
  let e := min a.e b.e
  ⟨a.m * 2 ^ (a.e - e).toNat + b.m * 2 ^ (b.e - e).toNat, e⟩

/-- Exact difference of two dyadic values (before rounding). -/
def Dy.subExact (a b : Dy) : Dy :=
  let e := min a.e b.e
  ⟨a.m * 2 ^ (a.e - e).toNat - b.m * 2 ^ (b.e - e).toNat, e⟩

/-- Exact product of two dyadic values (before rounding). -/
def Dy.mulExact (a b : Dy) : Dy := ⟨a.m * b.m, a.e + b.e⟩

/-- Value-level equality test. -/
def Dy.eqb (a b : Dy) : Bool :=
  let e := min a.e b.e
  a.m * 2 ^ (a.e - e).toNat == b.m * 2 ^ (b.e - e).toNat

/-- Value-level strict order test (a < b). -/
def Dy.ltb (a b : Dy) : Bool :=
  let e := min a.e b.e
  decide (a.m * 2 ^ (a.e - e).toNat < b.m * 2 ^ (b.e - e).toNat)

/-- Math.floor on a dyadic value. -/
def Dy.floor (a : Dy) : ℤ :=
  if 0 ≤ a.e then a.m * 2 ^ a.e.toNat else a.m.fdiv (2 ^ (-a.e).toNat)

/-- Number.isInteger on a dyadic value. -/
def Dy.isInt (a : Dy) : Bool :=
  if 0 ≤ a.e then true else a.m % 2 ^ (-a.e).toNat == 0

/-- An integer as a JS number. -/
def Dy.ofInt (n : ℤ) : Dy := ⟨n, 0⟩

/-- JS addition: exact sum rounded to binary64. -/
def jsAdd (a b : Dy) : Dy := roundDouble (Dy.addExact a b)

/-- JS subtraction: exact difference rounded to binary64. -/
def jsSub (a b : Dy) : Dy := roundDouble (Dy.subExact a b)

/-- JS multiplication: exact product rounded to binary64. -/
def jsMul (a b : Dy) : Dy := roundDouble (Dy.mulExact a b)

/-- JS division by 2^k (the only division in this code path divides by
    Math.pow(16,16) = 2^64, an exact power of two, so the exact quotient is
    dyadic and is then rounded like any double result). -/
def jsDivPow2 (a : Dy) (k : ℕ) : Dy := roundDouble ⟨a.m, a.e - (k : ℤ)⟩

/-- parseInt on a string of hex digits: the exact mathematical value. -/
def parseHexNat (l : List Hex) : ℕ := l.foldl (fun a d => 16 * a + d.val) 0

/-- QuantumRandom.getFloat: 16 hex characters parsed as an integer (rounded
    to a double by parseInt) and divided by 16^16. -/
def getFloat (q : QState) : Except String (Dy × QState) :=
  match getHexadecimal 16 q with
  | .error e => .error e
  | .ok (hex, q') =>
    let value := roundDouble ⟨(parseHexNat hex : ℤ), 0⟩
    .ok (jsDivPow2 value 64, q')

/-- QuantumRandom.getInteger: argument checks, then
    Math.floor(float * (max - min + 1)) + min in JS double arithmetic. -/
def getInteger (min max : Dy) (q : QState) : Except String (Dy × QState) :=
  if !min.isInt || !max.isInt then .error "min and max must be integers"
  else if Dy.ltb max min then .error "min must be <= max"
  else
    match getFloat q with
    | .error e => .error e
    | .ok (f, q') =>
      let range := jsAdd (jsSub max min) (Dy.ofInt 1)
      .ok (jsAdd (Dy.ofInt ((jsMul f range).floor)) min, q')

/-- The failing input for C4: a cache holding sixteen f digits. -/
def qAllF : QState :=
  { cache := List.replicate 16 (15 : Hex), storage := none,
    bytes := fun _ => (0 : Fin 256), pos := 0 }

/- ===================== SongSelector.ts ===================== -/

/-- Track type: lead (16-beat intro) or body (64-beat main). -/
inductive TrackType where
  | lead
  | body
deriving DecidableEq, Repr

/-- SongSelectorOptions with the source's defaults. -/
structure Opts where
  candidatePoolSize : ℕ := 5
  useMagicNumber : Bool := true
  minCompatibilityScore : ℕ := 5
  defaultTempo : ℕ := 94
deriving DecidableEq, Repr

/-- Mutable state owned by the selector and its sub-components: the
    library's played-id set, the key manager's current key and direction
    (`forward = true` is the forward direction), the selector's counters, and
    positions in the two randomness streams. -/
structure SelState where
  played : List ℤ
  currentKey : ℕ
  forward : Bool
  trackCount : ℕ
  lastTrackType : TrackType
  currentTempo : ℕ
  rngK : ℕ
  typeK : ℕ
deriving DecidableEq, Repr

/-- types.ts TrackRequest. -/
structure TrackRequest where
  song : Song
  tempo : ℕ
  type : TrackType
deriving DecidableEq, Repr

/-- SongSelector SelectionResult. -/
structure SelectionResult where
  track : TrackRequest
  wasMagicNumber : Bool
  candidatesConsidered : ℕ
  compatibilityScore : ℕ
deriving DecidableEq, Repr

/-- The integers returned by the awaited QuantumRandom.getInteger calls,
    as a stream indexed by call number: `oi k m` is the value the k-th call
    with arguments (0, m) returns.  The generator's contract (settled
    separately in C4) is that this value lies in [0, m]; theorems about the
    selector take that contract as a hypothesis on the stream. -/
def IntOracle : Type := ℕ → ℕ → ℕ

/-- The outcomes of the Math.random() < 0.3 coin in determineTrackType
    (true = use a second body), as a stream indexed by call number. -/
def BoolOracle : Type := ℕ → Bool

/-- QuantumRandom.getChoice at the k-th randomness position: throws on an
    empty array, draws array[getInteger(0, len - 1)], and throws if that
    index is somehow out of range (the `item === undefined` guard). -/
def getChoice (oi : IntOracle) (k : ℕ) (l : List α) : Except String α :=
  if l.length = 0 then .error "array must not be empty"
  else
    if h : oi k (l.length - 1) < l.length then .ok (l.get ⟨oi k (l.length - 1), h⟩)
    else .error "Failed to get choice"

/-- SongSelector.scoreCandidates: score each candidate against the current
    key, drop those under minCompatibilityScore, sort by descending score
    (stable, so ties keep candidate order). -/
def scoreCandidates (opts : Opts) (currentKey : ℕ) (cands : List Song) : List (Song × ℕ) :=
  stableSort (fun a b => decide (b.2 < a.2))
    ((cands.map (fun s => (s, scoreCompatibility currentKey s.key))).filter
      (fun p => decide (opts.minCompatibilityScore ≤ p.2)))

/-- The accumulation loop of SongSelector.getCompatibleCandidates: walk the
    compatible keys in order, appending the unplayed songs of each key, and
    stop as soon as at least 2 * candidatePoolSize candidates are gathered
    (the length test runs after each push, as in the source). -/
def getCompatibleCandidatesGo (songs : List Song) (played : List ℤ) (pool2 : ℕ) :
    List ℕ → List Song → List Song
  | [], acc => acc
  | k :: rest, acc =>
    if pool2 ≤ (acc ++ getUnplayed songs played { key := some k }).length then
      acc ++ getUnplayed songs played { key := some k }
    else getCompatibleCandidatesGo songs played pool2 rest
      (acc ++ getUnplayed songs played { key := some k })

/-- SongSelector.getCompatibleCandidates: unplayed songs at keys compatible
    with the current key at or above minCompatibilityScore, walked in
    descending-compatibility order. -/
def getCompatibleCandidates (songs : List Song) (opts : Opts) (played : List ℤ)
    (currentKey : ℕ) : List Song :=
  getCompatibleCandidatesGo songs played (opts.candidatePoolSize * 2)
    ((getCompatibleKeys currentKey).filter
      (fun k => decide (opts.minCompatibilityScore ≤ scoreCompatibility currentKey k))) []

/-- The four-level fallback cascade of SongSelector.selectNormal, returning
    the candidate list together with the played set after any automatic
    library reset: (a) unplayed at the current key; (b) unplayed at
    compatible keys; (c) reset, then all tracks at the current key; (d) any
    unplayed track (post-reset this is the whole catalogue); (e) reset and
    the entire catalogue. -/
def normalTiers (songs : List Song) (opts : Opts) (played : List ℤ) (ck : ℕ) :
    List Song × List ℤ :=
  if (getUnplayed songs played { key := some ck }).length ≠ 0 then
    (getUnplayed songs played { key := some ck }, played)
  else if (getCompatibleCandidates songs opts played ck).length ≠ 0 then
    (getCompatibleCandidates songs opts played ck, played)
  else if (filterSongs songs { key := some ck }).length ≠ 0 then
    (filterSongs songs { key := some ck }, [])
  else if (getUnplayed songs [] {}).length ≠ 0 then
    (getUnplayed songs [] {}, [])
  else (songs, [])

/-- SongSelector.selectFromTopCandidates: draw from the top candidatePoolSize
    scored candidates; on an empty scored list fall back to a draw from the
    whole catalogue (without resetting).  Returns the chosen song and the
    next randomness position. -/
def selectFromTopCandidates (songs : List Song) (opts : Opts) (oi : IntOracle) (k : ℕ)
    (scored : List (Song × ℕ)) : Except String (Song × ℕ) :=
  if scored.length = 0 then
    match getChoice oi k songs with
    | .error e => .error e
    | .ok s => .ok (s, k + 1)
  else
    match getChoice oi k (scored.take opts.candidatePoolSize) with
    | .error e => .error e
    | .ok p => .ok (p.1, k + 1)

/-- SongSelector.selectNormal: tiered candidate collection, scoring, and a
    draw from the top of the pool.  Returns (song, candidatesConsidered,
    played set after any resets, next randomness position). -/
def selectNormal (songs : List Song) (opts : Opts) (oi : IntOracle) (played : List ℤ)
    (ck : ℕ) (k : ℕ) : Except String (Song × ℕ × List ℤ × ℕ) :=
  match selectFromTopCandidates songs opts oi k
      (scoreCandidates opts ck (normalTiers songs opts played ck).1) with
  | .error e => .error e
  | .ok (s, k2) => .ok (s, (normalTiers songs opts played ck).1.length,
      (normalTiers songs opts played ck).2, k2)

/-- The candidate pool of SongSelector.selectMagicNumber, with the played
    set after its reset fallback: all unplayed songs (no key filter), or the
    whole catalogue with a cleared played set when none remain. -/
def magicTiers (songs : List Song) (played : List ℤ) : List Song × List ℤ :=
  if (getUnplayed songs played {}).length = 0 then (songs, [])
  else (getUnplayed songs played {}, played)

/-- SongSelector.selectMagicNumber: uniform draw via getChoice from the
    magic-number candidate pool. -/
def selectMagicNumber (songs : List Song) (oi : IntOracle) (played : List ℤ) (k : ℕ) :
    Except String (Song × ℕ × List ℤ × ℕ) :=
  match getChoice oi k (magicTiers songs played).1 with
  | .error e => .error e
  | .ok s => .ok (s, (magicTiers songs played).1.length, (magicTiers songs played).2, k + 1)

/-- SongSelector.determineTrackType: first call is a lead; after a lead
    always a body; after a body a 30% coin decides (true = another body).
    Returns the chosen type (also stored as lastTrackType) and the next coin
    position. -/
def determineTrackType (trackCount : ℕ) (lastType : TrackType) (ob : BoolOracle)
    (tk : ℕ) : TrackType × ℕ :=
  if trackCount = 1 then (.lead, tk)
  else if lastType = .lead then (.body, tk)
  else if ob tk then (.body, tk + 1)
  else (.lead, tk + 1)

/-- SongSelector.selectTrack: increment trackCount, branch on the magic
    number rule, determine the track type, mark the song played, advance the
    key (except on the very first call), and score the result against the
    advanced key. -/
def selectTrack (songs : List Song) (opts : Opts) (oi : IntOracle) (ob : BoolOracle)
    (st : SelState) : Except String (SelectionResult × SelState) :=
  let tc := st.trackCount + 1
  let isMagic := opts.useMagicNumber && decide (tc % 5 = 0)
  match (if isMagic then selectMagicNumber songs oi st.played st.rngK
         else selectNormal songs opts oi st.played st.currentKey st.rngK) with
  | .error e => .error e
  | .ok (song, n, played1, rngK2) =>
    let tt := determineTrackType tc st.lastTrackType ob st.typeK
    let played2 := setAdd played1 song.id
    let key2 := if 1 < tc then nextKey st.currentKey st.forward else st.currentKey
    .ok ({ track := { song := song, tempo := st.currentTempo, type := tt.1 },
           wasMagicNumber := isMagic,
           candidatesConsidered := n,
           compatibilityScore := scoreCompatibility key2 song.key },
         { played := played2, currentKey := key2, forward := st.forward,
           trackCount := tc, lastTrackType := tt.1, currentTempo := st.currentTempo,
           rngK := rngK2, typeK := tt.2 })

/-- The selector's state at construction: empty played set, key 1 going
    forward, zero counters, lastTrackType body, default tempo. -/
def initState (opts : Opts) : SelState :=
  { played := [], currentKey := 1, forward := true, trackCount := 0,
    lastTrackType := .body, currentTempo := opts.defaultTempo, rngK := 0, typeK := 0 }

/-- SongSelector.reset: optionally clear the library and the key manager;
    always zero trackCount, set lastTrackType to body, restore the default
    tempo. -/
def resetSel (opts : Opts) (resetLibrary resetKeyManager : Bool) (st : SelState) : SelState :=
  { played := if resetLibrary then [] else st.played,
    currentKey := if resetKeyManager then 1 else st.currentKey,
    forward := if resetKeyManager then true else st.forward,
    trackCount := 0, lastTrackType := .body, currentTempo := opts.defaultTempo,
    rngK := st.rngK, typeK := st.typeK }

/-- Run `n` consecutive selectTrack calls, collecting the results. -/
def runSel (songs : List Song) (opts : Opts) (oi : IntOracle) (ob : BoolOracle) :
    ℕ → SelState → Except String (List SelectionResult × SelState)
  | 0, st => .ok ([], st)
  | n + 1, st =>
    match selectTrack songs opts oi ob st with
    | .error e => .error e
    | .ok (r, st2) =>
      match runSel songs opts oi ob n st2 with
      | .error e => .error e
      | .ok (rs, st3) => .ok (r :: rs, st3)

/-- The options with the magic-number (wildcard) rule disabled. -/
def optsNoMagic : Opts := { useMagicNumber := false }

/-- An index stream that always answers 0 (a legal getInteger output). -/
def oiZero : IntOracle := fun _ _ => 0

/-- A coin stream that never asks for a second body. -/
def obFalse : BoolOracle := fun _ => false

/-- A concrete track in key 1 at tempo 94. -/
def songA : Song := { id := 1, artist := "a", title := "s", key := 1, bpm := 94 }

/-- A second concrete track in key 1 at tempo 94. -/
def songB : Song := { id := 2, artist := "b", title := "t", key := 1, bpm := 94 }

/-- The two-track catalogue of the C2 scenario: both tracks in key 1 at
    tempo 94. -/
def songsTwoKey1 : List Song := [songA, songB]

/-- The catalogue for the C1 counterexample: track 2 sits at the tritone of
    key 1 (compatibility score 1, under the default minimum of 5). -/
def songsTritone : List Song :=
  [ { id := 1, artist := "a", title := "s", key := 1, bpm := 94 }
  , { id := 2, artist := "b", title := "t", key := 6, bpm := 94 } ]

/-- The state selectTrack leaves behind, given the song, post-reset played
    set and next randomness position produced by the selection branch (proof
    shorthand for the record built at the end of selectTrack). -/
def postState (st : SelState) (ob : BoolOracle) (song : Song) (played1 : List ℤ)
    (rngK2 : ℕ) : SelState :=
  { played := setAdd played1 song.id,
    currentKey := if 1 < st.trackCount + 1 then nextKey st.currentKey st.forward
      else st.currentKey,
    forward := st.forward, trackCount := st.trackCount + 1,
    lastTrackType := (determineTrackType (st.trackCount + 1) st.lastTrackType ob st.typeK).1,
    currentTempo := st.currentTempo, rngK := rngK2,
    typeK := (determineTrackType (st.trackCount + 1) st.lastTrackType ob st.typeK).2 }

/-- The result selectTrack returns, given the song and candidate count
    produced by the selection branch (proof shorthand for the record built at
    the end of selectTrack). -/
def postResult (opts : Opts) (st : SelState) (ob : BoolOracle) (song : Song)
    (n : ℕ) : SelectionResult :=
  { track := { song := song, tempo := st.currentTempo, type :=
      (determineTrackType (st.trackCount + 1) st.lastTrackType ob st.typeK).1 },
    wasMagicNumber := opts.useMagicNumber && decide ((st.trackCount + 1) % 5 = 0),
    candidatesConsidered := n,
    compatibilityScore := scoreCompatibility
      (if 1 < st.trackCount + 1 then nextKey st.currentKey st.forward else st.currentKey)
      song.key }

/-- The results of three selectTrack calls on the two-track catalogue (used
    as concrete witness data). -/
def runTwoKey1Results : List SelectionResult :=
  [ { track := { song := songA, tempo := 94, type := TrackType.lead },
      wasMagicNumber := false, candidatesConsidered := 2, compatibilityScore := 10 }
  , { track := { song := songB, tempo := 94, type := TrackType.body },
      wasMagicNumber := false, candidatesConsidered := 1, compatibilityScore := 7 }
  , { track := { song := songA, tempo := 94, type := TrackType.lead },
      wasMagicNumber := false, candidatesConsidered := 2, compatibilityScore := 5 } ]

/-- The state after those three calls (used as concrete witness data). -/
def runTwoKey1Final : SelState :=
  { played := [1], currentKey := 3, forward := true, trackCount := 3,
    lastTrackType := TrackType.lead, currentTempo := 94, rngK := 3, typeK := 1 }

/-- The results of five selectTrack calls on the two-track catalogue with
    default options (wildcard enabled); only the fifth is a wildcard. -/
def runFiveResults : List SelectionResult :=
  [ { track := { song := songA, tempo := 94, type := TrackType.lead },
      wasMagicNumber := false, candidatesConsidered := 2, compatibilityScore := 10 }
  , { track := { song := songB, tempo := 94, type := TrackType.body },
      wasMagicNumber := false, candidatesConsidered := 1, compatibilityScore := 7 }
  , { track := { song := songA, tempo := 94, type := TrackType.lead },
      wasMagicNumber := false, candidatesConsidered := 2, compatibilityScore := 5 }
  , { track := { song := songB, tempo := 94, type := TrackType.body },
      wasMagicNumber := false, candidatesConsidered := 1, compatibilityScore := 3 }
  , { track := { song := songA, tempo := 94, type := TrackType.lead },
      wasMagicNumber := true, candidatesConsidered := 2, compatibilityScore := 2 } ]

/-- The state after those five calls (used as concrete witness data). -/
def runFiveFinal : SelState :=
  { played := [1], currentKey := 5, forward := true, trackCount := 5,
    lastTrackType := TrackType.lead, currentTempo := 94, rngK := 5, typeK := 2 }

/-- Whether the current call can be served from tier (a) or tier (b), i.e.
    an unplayed track exists at the current key or at a key compatible with
    it at or above minCompatibilityScore.  When this holds, selectNormal
    performs no catalogue reset. -/
def tierABNonempty (songs : List Song) (opts : Opts) (played : List ℤ) (ck : ℕ) : Bool :=
  decide ((getUnplayed songs played { key := some ck }).length ≠ 0) ||
  decide ((getCompatibleCandidates songs opts played ck).length ≠ 0)

/-- Run of selectTrack calls that also checks, before each call, that tier
    (a) or (b) can serve it (no fallback reset will engage); returns the
    selected ids, or none if a call would need a fallback tier or fails. -/
def runChecked (songs : List Song) (opts : Opts) (oi : IntOracle) (ob : BoolOracle) :
    ℕ → SelState → Option (List ℤ × SelState)
  | 0, st => some ([], st)
  | n + 1, st =>
    if tierABNonempty songs opts st.played st.currentKey then
      match selectTrack songs opts oi ob st with
      | .error _ => none
      | .ok (r, st2) =>
        match runChecked songs opts oi ob n st2 with
        | none => none
        | some (ids, s3) => some (r.track.song.id :: ids, s3)
    else none

/-- The state after the checked two-call run (used as concrete witness data). -/
def runCheckedTwoFinal : SelState :=
  { played := [1, 2], currentKey := 2, forward := true, trackCount := 2,
    lastTrackType := TrackType.body, currentTempo := 94, rngK := 2, typeK := 0 }

/-- One Fisher-Yates swap: exchange positions i and j of the array.  Indices
    are in range whenever the randomness source honours the getInteger
    contract (j is drawn from [0, i] with i below the length); the identity
    fallback never fires under that contract. -/
def swapL (l : List α) (i j : ℕ) : List α :=
  if h : i < l.length ∧ j < l.length then
    (l.set i (l.get ⟨j, h.2⟩)).set j (l.get ⟨i, h.1⟩)
  else l

/-- The Fisher-Yates loop of QuantumRandom.shuffle: for i from length - 1
    down to 1, swap position i with position getInteger(0, i); threads the
    randomness position. -/
def shuffleAux (oi : IntOracle) : List α → ℕ → ℕ → List α × ℕ
  | l, 0, k => (l, k)
  | l, i + 1, k => shuffleAux oi (swapL l (i + 1) (oi k (i + 1))) i (k + 1)

/-- QuantumRandom.shuffle on a copy of the array. -/
def shuffleO (oi : IntOracle) (l : List α) (k : ℕ) : List α × ℕ :=
  shuffleAux oi l (l.length - 1) k

/-- QuantumRandom.getUniqueChoices: reject counts above the array length or
    below zero, otherwise shuffle and take the first count elements. -/
def uniqueChoicesO (oi : IntOracle) (l : List α) (count : ℤ) (k : ℕ) :
    Except String (List α × ℕ) :=
  if (l.length : ℤ) < count then .error "count must be <= array.length"
  else if count < 0 then .error "count must be >= 0"
  else .ok ((shuffleO oi l k).1.take count.toNat, (shuffleO oi l k).2)

/- ===================== Theorems ===================== -/
theorem stableInsert_perm (lt : α → α → Bool) (x : α) (l : List α) :
    List.Perm (stableInsert lt x l) (x :: l) := by
  induction l with
  | nil => exact List.Perm.refl _
  | cons y ys ih =>
    simp only [stableInsert]
    split
    · exact List.Perm.refl _
    · exact (ih.cons y).trans (List.Perm.swap x y ys)

theorem stableSort_foldl_perm (lt : α → α → Bool) (l acc : List α) :
    List.Perm (l.foldl (fun acc x => stableInsert lt x acc) acc) (acc ++ l) := by
  induction l generalizing acc with
  | nil => simp
  | cons x xs ih =>
    simp only [List.foldl_cons]
    exact (ih (stableInsert lt x acc)).trans
      (((stableInsert_perm lt x acc).append_right xs).trans List.perm_middle.symm)

theorem stableSort_perm (lt : α → α → Bool) (l : List α) :
    List.Perm (stableSort lt l) l := by
  simpa [stableSort] using stableSort_foldl_perm lt l []

theorem mem_stableSort (lt : α → α → Bool) (l : List α) (x : α) :
    x ∈ stableSort lt l ↔ x ∈ l :=
  (stableSort_perm lt l).mem_iff

/-- Transport a two-key property proved for all of Fin 12 × Fin 12 to natural
    number keys in 1..12. -/
theorem key_cases2 {P : ℕ → ℕ → Prop}
    (h : ∀ x y : Fin 12, P (x.val + 1) (y.val + 1))
    {a b : ℕ} (ha1 : 1 ≤ a) (ha2 : a ≤ 12) (hb1 : 1 ≤ b) (hb2 : b ≤ 12) :
    P a b := by
  have h1 : a - 1 < 12 := by omega
  have h2 : b - 1 < 12 := by omega
  have := h ⟨a - 1, h1⟩ ⟨b - 1, h2⟩
  simpa [Nat.sub_add_cancel ha1, Nat.sub_add_cancel hb1] using this

/-- Transport a one-key property proved for all of Fin 12 to natural number
    keys in 1..12. -/
theorem key_cases1 {P : ℕ → Prop}
    (h : ∀ x : Fin 12, P (x.val + 1))
    {a : ℕ} (ha1 : 1 ≤ a) (ha2 : a ≤ 12) : P a := by
  have h1 : a - 1 < 12 := by omega
  have := h ⟨a - 1, h1⟩
  simpa [Nat.sub_add_cancel ha1] using this

/-- C8: for all keys a, b in 1..12 the compatibility table is symmetric, all
    scores lie in 1..10, a score of 10 occurs exactly on the diagonal, and
    the spot values scoreCompatibility 1 8 = 9 and scoreCompatibility 1 6 = 1
    hold. -/
theorem c8_score_symm_range (a b : ℕ)
    (ha1 : 1 ≤ a) (ha2 : a ≤ 12) (hb1 : 1 ≤ b) (hb2 : b ≤ 12) :
    scoreCompatibility a b = scoreCompatibility b a ∧
    1 ≤ scoreCompatibility a b ∧ scoreCompatibility a b ≤ 10 ∧
    (scoreCompatibility a b = 10 ↔ a = b) ∧
    scoreCompatibility 1 8 = 9 ∧ scoreCompatibility 1 6 = 1 :=
  @key_cases2 (fun a b =>
      scoreCompatibility a b = scoreCompatibility b a ∧
      1 ≤ scoreCompatibility a b ∧ scoreCompatibility a b ≤ 10 ∧
      (scoreCompatibility a b = 10 ↔ a = b) ∧
      scoreCompatibility 1 8 = 9 ∧ scoreCompatibility 1 6 = 1)
    (by decide) a b ha1 ha2 hb1 hb2

/-- Witness for c8_score_symm_range at a = 1, b = 8. -/
theorem c8_score_symm_range_witness :
    scoreCompatibility 1 8 = scoreCompatibility 8 1 ∧
    1 ≤ scoreCompatibility 1 8 ∧ scoreCompatibility 1 8 ≤ 10 ∧
    (scoreCompatibility 1 8 = 10 ↔ 1 = 8) ∧
    scoreCompatibility 1 8 = 9 ∧ scoreCompatibility 1 6 = 1 :=
  c8_score_symm_range 1 8 (by decide) (by decide) (by decide) (by decide)

/-- C7: for every key in 1..12, getCompatibleKeys returns each of the 12 keys
    exactly once, ordered by strictly descending score with ties broken by
    ascending key number, with the source key itself first and as the unique
    key scoring 10. -/
theorem c7_getCompatibleKeys_spec (f : ℕ) (hf1 : 1 ≤ f) (hf2 : f ≤ 12) :
    List.Perm (getCompatibleKeys f) [1, 2, 3, 4, 5, 6, 7, 8, 9, 10, 11, 12] ∧
    (getCompatibleKeys f).head? = some f ∧
    List.Pairwise (fun a b => scoreCompatibility f b < scoreCompatibility f a ∨
      (scoreCompatibility f a = scoreCompatibility f b ∧ a < b)) (getCompatibleKeys f) ∧
    (∀ k ∈ getCompatibleKeys f, scoreCompatibility f k = 10 → k = f) :=
  @key_cases1 (fun f =>
      List.Perm (getCompatibleKeys f) [1, 2, 3, 4, 5, 6, 7, 8, 9, 10, 11, 12] ∧
      (getCompatibleKeys f).head? = some f ∧
      List.Pairwise (fun a b => scoreCompatibility f b < scoreCompatibility f a ∨
        (scoreCompatibility f a = scoreCompatibility f b ∧ a < b)) (getCompatibleKeys f) ∧
      (∀ k ∈ getCompatibleKeys f, scoreCompatibility f k = 10 → k = f))
    (by decide) f hf1 hf2

/-- Witness for c7_getCompatibleKeys_spec at key 1. -/
theorem c7_getCompatibleKeys_spec_witness :
    List.Perm (getCompatibleKeys 1) [1, 2, 3, 4, 5, 6, 7, 8, 9, 10, 11, 12] ∧
    (getCompatibleKeys 1).head? = some 1 ∧
    List.Pairwise (fun a b => scoreCompatibility 1 b < scoreCompatibility 1 a ∨
      (scoreCompatibility 1 a = scoreCompatibility 1 b ∧ a < b)) (getCompatibleKeys 1) ∧
    (∀ k ∈ getCompatibleKeys 1, scoreCompatibility 1 k = 10 → k = 1) :=
  c7_getCompatibleKeys_spec 1 (by decide) (by decide)

theorem setAdd_subset {s : List ℤ} {x : ℤ} {u : List ℤ}
    (hs : ∀ y ∈ s, y ∈ u) (hx : x ∈ u) : ∀ y ∈ setAdd s x, y ∈ u := by
  intro y hy
  unfold setAdd at hy
  split at hy
  · exact hs y hy
  · rcases List.mem_append.mp hy with h | h
    · exact hs y h
    · rcases List.mem_singleton.mp h with rfl
      exact hx

theorem markManyPlayed_subset {s : List ℤ} {ids : List ℤ} {u : List ℤ}
    (hs : ∀ y ∈ s, y ∈ u) (hids : ∀ y ∈ ids, y ∈ u) :
    ∀ y ∈ markManyPlayed s ids, y ∈ u := by
  unfold markManyPlayed
  induction ids generalizing s with
  | nil => exact hs
  | cons a as ih =>
    simp only [List.foldl_cons]
    refine ih (setAdd_subset hs (hids a (List.mem_cons_self a as))) ?_
    intro y hy
    exact hids y (List.mem_cons_of_mem a hy)

/-- C3 counterexample: on a library whose only track has id 1, the single
    call markPlayed(2) puts 2 into the played set although no track has
    id 2, so the played set is not a subset of the track-list ids. -/
theorem c3_counterexample :
    (2:ℤ) ∈ runLibOps [LibOp.markPlayed 2] ∧
    (2:ℤ) ∉ songIds [{ id := 1, artist := "a", title := "t", key := 1, bpm := 94 }] := by
  decide

/-- C3 amended: the played set stays a subset of the track-list ids for every
    operation sequence whose markPlayed / markManyPlayed arguments are all
    ids of tracks in the list (the code performs no membership validation, so
    the unrestricted claim fails; the Selector only ever marks ids of
    selected tracks, satisfying this hypothesis). -/
theorem c3_played_subset_ids (allSongs : List Song) (ops : List LibOp)
    (h : ∀ op ∈ ops, ∀ i ∈ libOpIds op, i ∈ songIds allSongs) :
    ∀ y ∈ runLibOps ops, y ∈ songIds allSongs := by
  unfold runLibOps
  have main : ∀ (ops : List LibOp) (s : List ℤ),
      (∀ op ∈ ops, ∀ i ∈ libOpIds op, i ∈ songIds allSongs) →
      (∀ y ∈ s, y ∈ songIds allSongs) →
      ∀ y ∈ ops.foldl applyLibOp s, y ∈ songIds allSongs := by
    intro ops
    induction ops with
    | nil => intro s _ hs; simpa using hs
    | cons op rest ih =>
      intro s hops hs
      simp only [List.foldl_cons]
      refine ih (applyLibOp s op) (fun o ho => hops o (List.mem_cons_of_mem op ho)) ?_
      have hop := hops op (List.mem_cons_self op rest)
      cases op with
      | markPlayed id =>
        exact setAdd_subset hs (by simpa [libOpIds] using hop)
      | markManyPlayed ids =>
        exact markManyPlayed_subset hs (by simpa [libOpIds] using hop)
      | reset => simp [applyLibOp]
  exact main ops [] h (by simp)

/-- Witness for c3_played_subset_ids: marking the one existing id keeps the
    played set inside the track-list ids. -/
theorem c3_played_subset_ids_witness :
    (∀ op ∈ [LibOp.markPlayed 1],
        ∀ i ∈ libOpIds op,
          i ∈ songIds [{ id := 1, artist := "a", title := "t", key := 1, bpm := 94 }]) ∧
    ∀ y ∈ runLibOps [LibOp.markPlayed 1],
      y ∈ songIds [{ id := 1, artist := "a", title := "t", key := 1, bpm := 94 }] :=
  ⟨by decide, c3_played_subset_ids _ _ (by decide)⟩

theorem saveCacheToStorage_cache (q : QState) : (saveCacheToStorage q).cache = q.cache := by
  unfold saveCacheToStorage
  split <;> rfl

theorem saveCacheToStorage_bytes (q : QState) : (saveCacheToStorage q).bytes = q.bytes := by
  unfold saveCacheToStorage
  split <;> rfl

theorem saveCacheToStorage_pos (q : QState) : (saveCacheToStorage q).pos = q.pos := by
  unfold saveCacheToStorage
  split <;> rfl

theorem cryptoChars_length (bytes : ℕ → Fin 256) (pos n : ℕ) :
    (cryptoChars bytes pos n).length = 2 * n := by
  induction n generalizing pos with
  | zero => rfl
  | succ k ih => simp [cryptoChars, byteToHexPair, ih]; omega

theorem getCryptoHex_fst_length (q : QState) (len : ℕ) :
    ((getCryptoHex q len).1).length = len := by
  simp [getCryptoHex, cryptoChars_length]
  omega

/-- C10: entropy is consumed from the cache in FIFO order.  With a positive
    requested length, getHexadecimal succeeds and returns exactly `len`
    characters; when the cache holds at least `len` characters the result is
    its prefix and the cache is left as the remaining suffix in order (the
    fallback stream untouched); when the cache is shorter, exactly the
    shortfall is synthesized by the crypto fallback and appended after the
    cached characters, so the cached prefix is returned first and the cache
    is left empty. -/
theorem c10_hexadecimal_fifo (q : QState) (len : ℕ) (hpos : 0 < len) :
    ∃ out q', getHexadecimal len q = .ok (out, q') ∧
      out.length = len ∧
      (len ≤ q.cache.length →
        out = q.cache.take len ∧ q'.cache = q.cache.drop len ∧
        q'.bytes = q.bytes ∧ q'.pos = q.pos) ∧
      (q.cache.length < len →
        out = q.cache ++ (getCryptoHex q (len - q.cache.length)).1 ∧
        ((getCryptoHex q (len - q.cache.length)).1).length = len - q.cache.length ∧
        q'.cache = []) := by
  have hlen : len ≠ 0 := Nat.pos_iff_ne_zero.mp hpos
  by_cases hc : len ≤ q.cache.length
  · have he : ensureCacheSize q len = q := by rw [ensureCacheSize, if_pos hc]
    refine ⟨q.cache.take len,
      saveCacheToStorage { q with cache := q.cache.drop len }, ?_, ?_, ?_, ?_⟩
    · rw [getHexadecimal, if_neg hlen, he]
    · simp [List.length_take]; omega
    · intro _
      refine ⟨rfl, ?_, ?_, ?_⟩
      · rw [saveCacheToStorage_cache]
      · rw [saveCacheToStorage_bytes]
      · rw [saveCacheToStorage_pos]
    · intro h; omega
  · push_neg at hc
    have hadd : ((getCryptoHex q (len - q.cache.length)).1).length = len - q.cache.length :=
      getCryptoHex_fst_length q (len - q.cache.length)
    have hfull : (q.cache ++ (getCryptoHex q (len - q.cache.length)).1).length = len := by
      simp [hadd]; omega
    have he : ensureCacheSize q len =
        { (getCryptoHex q (len - q.cache.length)).2 with
          cache := q.cache ++ (getCryptoHex q (len - q.cache.length)).1 } := by
      rw [ensureCacheSize, if_neg (by omega : ¬ len ≤ q.cache.length)]
    refine ⟨q.cache ++ (getCryptoHex q (len - q.cache.length)).1,
      saveCacheToStorage
        { (getCryptoHex q (len - q.cache.length)).2 with cache := [] }, ?_, ?_, ?_, ?_⟩
    · rw [getHexadecimal, if_neg hlen, he]
      simp only []
      rw [List.take_of_length_le (le_of_eq hfull),
        List.drop_eq_nil_of_le (le_of_eq hfull)]
    · rw [hfull]
    · intro h; omega
    · intro _
      refine ⟨rfl, hadd, ?_⟩
      rw [saveCacheToStorage_cache]

/-- Witness for c10_hexadecimal_fifo: a concrete 2-character request against
    a 1-character cache. -/
theorem c10_hexadecimal_fifo_witness :
    0 < 2 ∧ ∃ out q',
      getHexadecimal 2 qShortCache = .ok (out, q') ∧
      out.length = 2 ∧
      (2 ≤ qShortCache.cache.length →
        out = qShortCache.cache.take 2 ∧ q'.cache = qShortCache.cache.drop 2 ∧
        q'.bytes = qShortCache.bytes ∧ q'.pos = qShortCache.pos) ∧
      (qShortCache.cache.length < 2 →
        out = qShortCache.cache ++ (getCryptoHex qShortCache (2 - qShortCache.cache.length)).1 ∧
        ((getCryptoHex qShortCache (2 - qShortCache.cache.length)).1).length =
          2 - qShortCache.cache.length ∧
        q'.cache = []) :=
  ⟨by decide, c10_hexadecimal_fifo qShortCache 2 (by decide)⟩

set_option maxRecDepth 8000 in
/-- C4 (code bug, evaluated at the failing input): with the cache holding
    "ffffffffffffffff", parseInt reads the value 2^64 - 1 and rounds it to
    the double 2^64, so getFloat returns exactly 1.0 (outside its documented
    range [0,1)) and getInteger(5,5) returns 6, outside [5,5]. -/
theorem c4_getInteger_escapes_range :
    (getFloat qAllF).toOption.map (fun p => Dy.eqb p.1 (Dy.ofInt 1)) = some true ∧
    (getInteger (Dy.ofInt 5) (Dy.ofInt 5) qAllF).toOption.map
      (fun p => Dy.eqb p.1 (Dy.ofInt 6)) = some true := by
  constructor
  · decide
  · decide

theorem getChoice_ok {oi : IntOracle} (ho : ∀ k m, oi k m ≤ m) (k : ℕ) {l : List α}
    (hl : l.length ≠ 0) : ∃ a, getChoice oi k l = .ok a ∧ a ∈ l := by
  have hlt : oi k (l.length - 1) < l.length := by
    have := ho k (l.length - 1)
    omega
  refine ⟨l.get ⟨oi k (l.length - 1), hlt⟩, ?_, List.get_mem l _ hlt⟩
  rw [getChoice, if_neg hl, dif_pos hlt]

set_option maxHeartbeats 1000000 in
theorem normalTiers_fst_ne_nil (songs : List Song) (opts : Opts) (played : List ℤ)
    (ck : ℕ) (hs : songs ≠ []) : (normalTiers songs opts played ck).1.length ≠ 0 := by
  rw [normalTiers]
  by_cases h1 : (getUnplayed songs played { key := some ck }).length ≠ 0
  · rw [if_pos h1]
    exact h1
  rw [if_neg h1]
  by_cases h2 : (getCompatibleCandidates songs opts played ck).length ≠ 0
  · rw [if_pos h2]
    exact h2
  rw [if_neg h2]
  by_cases h3 : (filterSongs songs { key := some ck }).length ≠ 0
  · rw [if_pos h3]
    exact h3
  rw [if_neg h3]
  by_cases h4 : (getUnplayed songs [] {}).length ≠ 0
  · rw [if_pos h4]
    exact h4
  rw [if_neg h4]
  simpa [List.length_eq_zero] using hs

theorem selectFromTopCandidates_ok (songs : List Song) (opts : Opts) (oi : IntOracle)
    (k : ℕ) (scored : List (Song × ℕ))
    (hs : songs ≠ []) (hp : 0 < opts.candidatePoolSize) (ho : ∀ k m, oi k m ≤ m) :
    ∃ s, selectFromTopCandidates songs opts oi k scored = .ok (s, k + 1) ∧
      (scored.length ≠ 0 → ∃ sc, (s, sc) ∈ scored) := by
  rw [selectFromTopCandidates]
  by_cases h0 : scored.length = 0
  · rw [if_pos h0]
    obtain ⟨a, ha, _⟩ := getChoice_ok ho k (l := songs)
      (by simpa [List.length_eq_zero] using hs)
    exact ⟨a, by rw [ha], fun h => absurd h0 h⟩
  · rw [if_neg h0]
    have htake : (scored.take opts.candidatePoolSize).length ≠ 0 := by
      simp only [List.length_take]
      omega
    obtain ⟨p, hp1, hp2⟩ := getChoice_ok ho k htake
    exact ⟨p.1, by rw [hp1], fun _ => ⟨p.2, List.take_subset _ _ hp2⟩⟩

theorem selectNormal_ok (songs : List Song) (opts : Opts) (oi : IntOracle)
    (played : List ℤ) (ck : ℕ) (k : ℕ)
    (hs : songs ≠ []) (hp : 0 < opts.candidatePoolSize) (ho : ∀ k m, oi k m ≤ m) :
    ∃ s, selectNormal songs opts oi played ck k =
      .ok (s, (normalTiers songs opts played ck).1.length,
        (normalTiers songs opts played ck).2, k + 1) := by
  obtain ⟨s, h1, _⟩ := selectFromTopCandidates_ok songs opts oi k
    (scoreCandidates opts ck (normalTiers songs opts played ck).1) hs hp ho
  exact ⟨s, by rw [selectNormal, h1]⟩

theorem magicTiers_fst_ne_nil (songs : List Song) (played : List ℤ) (hs : songs ≠ []) :
    (magicTiers songs played).1.length ≠ 0 := by
  rw [magicTiers]
  split
  · simpa [List.length_eq_zero] using hs
  next h => exact h

theorem selectMagicNumber_ok (songs : List Song) (oi : IntOracle)
    (played : List ℤ) (k : ℕ) (hs : songs ≠ []) (ho : ∀ k m, oi k m ≤ m) :
    ∃ s, selectMagicNumber songs oi played k =
      .ok (s, (magicTiers songs played).1.length, (magicTiers songs played).2, k + 1) ∧
      s ∈ (magicTiers songs played).1 := by
  obtain ⟨a, ha, ham⟩ := getChoice_ok ho k (magicTiers_fst_ne_nil songs played hs)
  exact ⟨a, by rw [selectMagicNumber, ha], ham⟩

theorem selectTrack_ok (songs : List Song) (opts : Opts) (oi : IntOracle)
    (ob : BoolOracle) (st : SelState)
    (hs : songs ≠ []) (hp : 0 < opts.candidatePoolSize) (ho : ∀ k m, oi k m ≤ m) :
    ∃ r st2, selectTrack songs opts oi ob st = .ok (r, st2) := by
  rw [selectTrack]
  by_cases hm : (opts.useMagicNumber && decide ((st.trackCount + 1) % 5 = 0)) = true
  · obtain ⟨s, h, _⟩ := selectMagicNumber_ok songs oi st.played st.rngK hs ho
    rw [if_pos hm, h]
    exact ⟨_, _, rfl⟩
  · obtain ⟨s, h⟩ := selectNormal_ok songs opts oi st.played st.currentKey st.rngK
      hs hp ho
    rw [if_neg hm, h]
    exact ⟨_, _, rfl⟩

theorem selectTrack_eq_of_magic {songs : List Song} {opts : Opts} {oi : IntOracle}
    {ob : BoolOracle} {st : SelState} {song : Song} {n : ℕ} {played1 : List ℤ} {rngK2 : ℕ}
    (hm : (opts.useMagicNumber && decide ((st.trackCount + 1) % 5 = 0)) = true)
    (hsel : selectMagicNumber songs oi st.played st.rngK = .ok (song, n, played1, rngK2)) :
    selectTrack songs opts oi ob st =
      .ok (postResult opts st ob song n, postState st ob song played1 rngK2) := by
  rw [selectTrack]
  simp only [hm, reduceIte, hsel, postResult, postState]

theorem selectTrack_eq_of_normal {songs : List Song} {opts : Opts} {oi : IntOracle}
    {ob : BoolOracle} {st : SelState} {song : Song} {n : ℕ} {played1 : List ℤ} {rngK2 : ℕ}
    (hm : (opts.useMagicNumber && decide ((st.trackCount + 1) % 5 = 0)) = false)
    (hsel : selectNormal songs opts oi st.played st.currentKey st.rngK =
      .ok (song, n, played1, rngK2)) :
    selectTrack songs opts oi ob st =
      .ok (postResult opts st ob song n, postState st ob song played1 rngK2) := by
  rw [selectTrack]
  simp only [hm, Bool.false_eq_true, reduceIte, hsel, postResult, postState]

/-- Every successful selectTrack call produces its result and next state in
    the postResult / postState shape, for some song, candidate count,
    post-reset played set and randomness position delivered by the branch. -/
theorem selectTrack_shape {songs : List Song} {opts : Opts} {oi : IntOracle}
    {ob : BoolOracle} {st : SelState} {r : SelectionResult} {st2 : SelState}
    (h : selectTrack songs opts oi ob st = .ok (r, st2)) :
    ∃ song n played1 rngK2,
      r = postResult opts st ob song n ∧ st2 = postState st ob song played1 rngK2 := by
  cases hm : (opts.useMagicNumber && decide ((st.trackCount + 1) % 5 = 0)) with
  | true =>
    cases hsel : selectMagicNumber songs oi st.played st.rngK with
    | error e =>
      rw [selectTrack, hm] at h
      simp only [reduceIte, hsel] at h
      exact Except.noConfusion h
    | ok v =>
      obtain ⟨song, n, played1, rngK2⟩ := v
      rw [selectTrack_eq_of_magic hm hsel] at h
      simp only [Except.ok.injEq, Prod.mk.injEq] at h
      exact ⟨song, n, played1, rngK2, h.1.symm, h.2.symm⟩
  | false =>
    cases hsel : selectNormal songs opts oi st.played st.currentKey st.rngK with
    | error e =>
      rw [selectTrack, hm] at h
      simp only [Bool.false_eq_true, reduceIte, hsel] at h
      exact Except.noConfusion h
    | ok v =>
      obtain ⟨song, n, played1, rngK2⟩ := v
      rw [selectTrack_eq_of_normal hm hsel] at h
      simp only [Except.ok.injEq, Prod.mk.injEq] at h
      exact ⟨song, n, played1, rngK2, h.1.symm, h.2.symm⟩

/-- C2: with a catalogue that was non-empty at construction (and a positive
    candidate pool, as in the defaults), selectTrack succeeds from every
    played-set and key state — the tier cascade never bottoms out in an
    error, given only the getInteger contract for the randomness stream.
    In addition, the concrete scenario: on a 2-track catalogue (both key 1,
    tempo 94), three consecutive selectTrack calls all succeed (the
    auto-reset engages on the third, re-selecting track 1) and trackCount is
    3 afterwards. -/
theorem c2_selectTrack_total (songs : List Song) (opts : Opts) (oi : IntOracle)
    (ob : BoolOracle) (st : SelState)
    (hs : songs ≠ []) (hp : 0 < opts.candidatePoolSize) (ho : ∀ k m, oi k m ≤ m) :
    (∃ r st2, selectTrack songs opts oi ob st = .ok (r, st2)) ∧
    (runSel songsTwoKey1 {} oiZero obFalse 3 (initState {})).toOption.map
      (fun p => (p.1.map (fun r => r.track.song.id), p.2.trackCount)) =
      some ([1, 2, 1], 3) :=
  ⟨selectTrack_ok songs opts oi ob st hs hp ho, by decide⟩

/-- Witness for c2_selectTrack_total at the concrete two-track catalogue. -/
theorem c2_selectTrack_total_witness :
    (∃ r st2, selectTrack songsTwoKey1 {} oiZero obFalse (initState {}) = .ok (r, st2)) ∧
    (runSel songsTwoKey1 {} oiZero obFalse 3 (initState {})).toOption.map
      (fun p => (p.1.map (fun r => r.track.song.id), p.2.trackCount)) =
      some ([1, 2, 1], 3) :=
  (c2_selectTrack_total songsTwoKey1 {} oiZero obFalse (initState {})
    (by decide) (by decide) (fun _ _ => Nat.zero_le _)).imp id id

theorem runSel_succ_ok {songs : List Song} {opts : Opts} {oi : IntOracle}
    {ob : BoolOracle} {n : ℕ} {st : SelState} {rs : List SelectionResult} {s2 : SelState}
    (h : runSel songs opts oi ob (n + 1) st = .ok (rs, s2)) :
    ∃ r st1 rest, selectTrack songs opts oi ob st = .ok (r, st1) ∧
      runSel songs opts oi ob n st1 = .ok (rest, s2) ∧ rs = r :: rest := by
  simp only [runSel] at h
  cases hsel : selectTrack songs opts oi ob st with
  | error e =>
    rw [hsel] at h
    exact Except.noConfusion h
  | ok v =>
    obtain ⟨r, st1⟩ := v
    rw [hsel] at h
    simp only [] at h
    cases hrec : runSel songs opts oi ob n st1 with
    | error e =>
      rw [hrec] at h
      exact Except.noConfusion h
    | ok p =>
      obtain ⟨rest, s3⟩ := p
      rw [hrec] at h
      simp only [Except.ok.injEq, Prod.mk.injEq] at h
      exact ⟨r, st1, rest, rfl, h.2 ▸ hrec, h.1.symm⟩

theorem runSel_zero {songs : List Song} {opts : Opts} {oi : IntOracle}
    {ob : BoolOracle} {st : SelState} {rs : List SelectionResult} {s2 : SelState}
    (h : runSel songs opts oi ob 0 st = .ok (rs, s2)) : rs = [] ∧ s2 = st := by
  simp only [runSel, Except.ok.injEq, Prod.mk.injEq] at h
  exact ⟨h.1.symm, h.2.symm⟩

theorem selectTrack_type_fields {songs : List Song} {opts : Opts} {oi : IntOracle}
    {ob : BoolOracle} {st : SelState} {r : SelectionResult} {st2 : SelState}
    (h : selectTrack songs opts oi ob st = .ok (r, st2)) :
    r.track.type = (determineTrackType (st.trackCount + 1) st.lastTrackType ob st.typeK).1 ∧
    st2.lastTrackType = r.track.type ∧ st2.trackCount = st.trackCount + 1 := by
  obtain ⟨song, n, p1, k2, hr, hst⟩ := selectTrack_shape h
  subst hr
  subst hst
  exact ⟨rfl, rfl, rfl⟩

theorem determineTrackType_first (lt : TrackType) (ob : BoolOracle) (tk : ℕ) :
    (determineTrackType 1 lt ob tk).1 = .lead := by
  simp [determineTrackType]

theorem determineTrackType_after_lead {tc : ℕ} (h : tc ≠ 1) (ob : BoolOracle) (tk : ℕ) :
    (determineTrackType tc .lead ob tk).1 = .body := by
  simp [determineTrackType, h]

theorem runSel_types_chain {songs : List Song} {opts : Opts} {oi : IntOracle}
    {ob : BoolOracle} : ∀ (n : ℕ) (st : SelState) (rs : List SelectionResult)
    (s2 : SelState),
    runSel songs opts oi ob n st = .ok (rs, s2) →
    ∀ i (hi : i < rs.length) (hi1 : i + 1 < rs.length),
      (rs.get ⟨i, hi⟩).track.type = TrackType.lead →
      (rs.get ⟨i + 1, hi1⟩).track.type = TrackType.body := by
  intro n
  induction n with
  | zero =>
    intro st rs s2 h i hi hi1 _
    obtain ⟨rfl, _⟩ := runSel_zero h
    exact absurd hi1 (by simp)
  | succ m ih =>
    intro st rs s2 h i hi hi1 hlead
    obtain ⟨r, st1, rest, hsel, hrec, rfl⟩ := runSel_succ_ok h
    cases i with
    | zero =>
      cases m with
      | zero =>
        obtain ⟨rfl, _⟩ := runSel_zero hrec
        exact absurd hi1 (by simp)
      | succ m2 =>
        obtain ⟨r2, st2, rest2, hsel2, hrec2, rfl⟩ := runSel_succ_ok hrec
        have ht1 := selectTrack_type_fields hsel
        have ht2 := selectTrack_type_fields hsel2
        have hlast : st1.lastTrackType = TrackType.lead := by
          rw [ht1.2.1]
          simpa using hlead
        have htype := ht2.1
        rw [hlast] at htype
        have hne : st1.trackCount + 1 ≠ 1 := by
          rw [ht1.2.2]
          omega
        show r2.track.type = TrackType.body
        rw [htype]
        exact determineTrackType_after_lead hne ob st1.typeK
    | succ j =>
      have hj1 : j + 1 < rest.length := by
        simpa using Nat.lt_of_succ_lt_succ hi1
      have hj : j < rest.length := by omega
      have hlead2 : (rest.get ⟨j, hj⟩).track.type = TrackType.lead := by
        simpa [List.get_cons_succ] using hlead
      have := ih st1 rest s2 hrec j hj hj1 hlead2
      simpa [List.get_cons_succ] using this

/-- C6: in every session and again after every reset, the first selectTrack
    result has type lead, and no lead result is ever immediately followed by
    another lead: the successor of a lead is always a body.  The start states
    in question (construction and every reset variant) all have trackCount 0,
    as the last two conjuncts record. -/
theorem c6_track_type_sequence (songs : List Song) (opts : Opts) (oi : IntOracle)
    (ob : BoolOracle) (n : ℕ) (st : SelState) (rs : List SelectionResult) (s2 : SelState)
    (hrun : runSel songs opts oi ob n st = .ok (rs, s2)) (hstart : st.trackCount = 0) :
    (∀ r rest, rs = r :: rest → r.track.type = TrackType.lead) ∧
    (∀ i (hi : i < rs.length) (hi1 : i + 1 < rs.length),
      (rs.get ⟨i, hi⟩).track.type = TrackType.lead →
      (rs.get ⟨i + 1, hi1⟩).track.type = TrackType.body) ∧
    (initState opts).trackCount = 0 ∧
    (∀ st0 b1 b2, (resetSel opts b1 b2 st0).trackCount = 0) := by
  refine ⟨?_, fun i hi hi1 => runSel_types_chain n st rs s2 hrun i hi hi1, rfl,
    fun st0 b1 b2 => rfl⟩
  intro r rest hcons
  subst hcons
  cases n with
  | zero =>
    obtain ⟨hnil, _⟩ := runSel_zero hrun
    exact absurd hnil (by simp)
  | succ m =>
    obtain ⟨r1, st1, rest1, hsel, _, hcons1⟩ := runSel_succ_ok hrun
    obtain ⟨rfl, rfl⟩ : r1 = r ∧ rest1 = rest := by
      constructor <;> [exact (List.cons.injEq .. ▸ hcons1.symm).1;
        exact (List.cons.injEq .. ▸ hcons1.symm).2]
    have ht := (selectTrack_type_fields hsel).1
    rw [hstart] at ht
    rw [ht]
    exact determineTrackType_first st.lastTrackType ob st.typeK

theorem getChoice_mem {oi : IntOracle} {k : ℕ} {l : List α} {a : α}
    (h : getChoice oi k l = .ok a) : a ∈ l := by
  rw [getChoice] at h
  split at h
  · exact Except.noConfusion h
  split at h
  · next hlt =>
    obtain rfl : l.get ⟨oi k (l.length - 1), hlt⟩ = a := by
      simpa using h
    exact l.get_mem _ hlt
  · exact Except.noConfusion h

theorem selectMagicNumber_shape {songs : List Song} {oi : IntOracle} {played : List ℤ}
    {k : ℕ} {song : Song} {n : ℕ} {p1 : List ℤ} {k2 : ℕ}
    (h : selectMagicNumber songs oi played k = .ok (song, n, p1, k2)) :
    song ∈ (magicTiers songs played).1 ∧ n = (magicTiers songs played).1.length ∧
    p1 = (magicTiers songs played).2 ∧ k2 = k + 1 := by
  rw [selectMagicNumber] at h
  cases hg : getChoice oi k (magicTiers songs played).1 with
  | error e =>
    rw [hg] at h
    exact Except.noConfusion h
  | ok s =>
    rw [hg] at h
    simp only [Except.ok.injEq, Prod.mk.injEq] at h
    obtain ⟨h1, h2, h3, h4⟩ := h
    exact ⟨h1 ▸ getChoice_mem hg, h2.symm, h3.symm, h4.symm⟩

theorem selectTrack_wasMagic {songs : List Song} {opts : Opts} {oi : IntOracle}
    {ob : BoolOracle} {st : SelState} {r : SelectionResult} {st2 : SelState}
    (h : selectTrack songs opts oi ob st = .ok (r, st2)) :
    r.wasMagicNumber = (opts.useMagicNumber && decide ((st.trackCount + 1) % 5 = 0)) ∧
    st2.trackCount = st.trackCount + 1 := by
  obtain ⟨song, n, p1, k2, hr, hst⟩ := selectTrack_shape h
  subst hr
  subst hst
  exact ⟨rfl, rfl⟩

theorem runSel_wasMagic {songs : List Song} {opts : Opts} {oi : IntOracle}
    {ob : BoolOracle} (hmagic : opts.useMagicNumber = true) :
    ∀ (n : ℕ) (st : SelState) (rs : List SelectionResult) (s2 : SelState),
    runSel songs opts oi ob n st = .ok (rs, s2) →
    ∀ i (hi : i < rs.length),
      (rs.get ⟨i, hi⟩).wasMagicNumber = decide ((st.trackCount + i + 1) % 5 = 0) := by
  intro n
  induction n with
  | zero =>
    intro st rs s2 h i hi
    obtain ⟨rfl, _⟩ := runSel_zero h
    exact absurd hi (by simp)
  | succ m ih =>
    intro st rs s2 h i hi
    obtain ⟨r, st1, rest, hsel, hrec, rfl⟩ := runSel_succ_ok h
    have hw := selectTrack_wasMagic hsel
    cases i with
    | zero =>
      show r.wasMagicNumber = decide ((st.trackCount + 0 + 1) % 5 = 0)
      rw [hw.1, hmagic, Bool.true_and]
    | succ j =>
      have hj : j < rest.length := by simpa using Nat.lt_of_succ_lt_succ hi
      have := ih st1 rest s2 hrec j hj
      rw [hw.2] at this
      have harg : st.trackCount + 1 + j + 1 = st.trackCount + (j + 1) + 1 := by omega
      rw [harg] at this
      simpa [List.get_cons_succ] using this

/-- C5: with wildcard mode enabled, a call is a magic-number (wildcard)
    selection exactly when it is the n-th call with n a multiple of 5
    (trackCount is incremented first, and reset zeroes it, so the n-th call
    since construction or reset sees trackCount + 1 = n); in a run from a
    zeroed state the i-th result (0-based) has wasMagicNumber exactly when
    (i + 1) is a multiple of 5.  A wildcard call draws its track from all
    unplayed tracks with no key filtering, via getChoice on exactly that
    pool; when no unplayed track exists the catalogue is reset first and the
    draw is from the full track list (afterwards only the chosen id is
    played). -/
theorem c5_wildcard_cadence (songs : List Song) (opts : Opts) (oi : IntOracle)
    (ob : BoolOracle) (hmagic : opts.useMagicNumber = true) :
    (∀ st r st2, selectTrack songs opts oi ob st = .ok (r, st2) →
      (r.wasMagicNumber = true ↔ (st.trackCount + 1) % 5 = 0)) ∧
    (∀ st r st2, (st.trackCount + 1) % 5 = 0 →
      selectTrack songs opts oi ob st = .ok (r, st2) →
      r.track.song ∈ (magicTiers songs st.played).1 ∧
      ((getUnplayed songs st.played {}).length ≠ 0 →
        r.track.song ∈ getUnplayed songs st.played {}) ∧
      ((getUnplayed songs st.played {}).length = 0 →
        r.track.song ∈ songs ∧ st2.played = [r.track.song.id])) ∧
    (∀ n st rs s2, runSel songs opts oi ob n st = .ok (rs, s2) → st.trackCount = 0 →
      ∀ i (hi : i < rs.length),
        (rs.get ⟨i, hi⟩).wasMagicNumber = decide ((i + 1) % 5 = 0)) := by
  refine ⟨?_, ?_, ?_⟩
  · intro st r st2 h
    rw [(selectTrack_wasMagic h).1, hmagic, Bool.true_and]
    simp
  · intro st r st2 hm5 h
    have hmtrue : (opts.useMagicNumber && decide ((st.trackCount + 1) % 5 = 0)) = true := by
      rw [hmagic, Bool.true_and]
      simpa using hm5
    cases hsel : selectMagicNumber songs oi st.played st.rngK with
    | error e =>
      rw [selectTrack, hmtrue] at h
      simp only [reduceIte, hsel] at h
      exact Except.noConfusion h
    | ok v =>
      obtain ⟨song, n, p1, k2⟩ := v
      rw [selectTrack_eq_of_magic hmtrue hsel] at h
      simp only [Except.ok.injEq, Prod.mk.injEq] at h
      obtain ⟨hsh1, hsh2, hsh3, _⟩ := selectMagicNumber_shape hsel
      have hr : r = postResult opts st ob song n := h.1.symm
      have hst2 : st2 = postState st ob song p1 k2 := h.2.symm
      have hsong : r.track.song = song := by rw [hr]; rfl
      refine ⟨hsong ▸ hsh1, ?_, ?_⟩
      · intro hne
        have hmt : (magicTiers songs st.played).1 = getUnplayed songs st.played {} := by
          rw [magicTiers, if_neg hne]
        rw [hsong]
        exact hmt ▸ hsh1
      · intro hzero
        have htiers : magicTiers songs st.played = (songs, []) := by
          rw [magicTiers, if_pos hzero]
        constructor
        · rw [hsong]
          have hmem := hsh1
          rw [htiers] at hmem
          exact hmem
        · rw [hst2, hsong]
          show setAdd p1 song.id = [song.id]
          rw [hsh3, htiers]
          rfl
  · intro n st rs s2 h h0 i hi
    have := runSel_wasMagic hmagic n st rs s2 h i hi
    rw [h0] at this
    simpa using this

/-- Witness for c6_track_type_sequence on the concrete three-call run. -/
theorem c6_track_type_sequence_witness :
    (∀ r rest, runTwoKey1Results = r :: rest → r.track.type = TrackType.lead) ∧
    (∀ i (hi : i < runTwoKey1Results.length) (hi1 : i + 1 < runTwoKey1Results.length),
      (runTwoKey1Results.get ⟨i, hi⟩).track.type = TrackType.lead →
      (runTwoKey1Results.get ⟨i + 1, hi1⟩).track.type = TrackType.body) ∧
    (initState {}).trackCount = 0 ∧
    (∀ st0 b1 b2, (resetSel {} b1 b2 st0).trackCount = 0) :=
  c6_track_type_sequence songsTwoKey1 {} oiZero obFalse 3 (initState {})
    runTwoKey1Results runTwoKey1Final (by rfl) (by rfl)

/-- Witness for c5_wildcard_cadence: in the concrete five-call run, the
    fifth result is a wildcard and the first is not. -/
theorem c5_wildcard_cadence_witness :
    (runFiveResults.get ⟨4, by decide⟩).wasMagicNumber = decide ((4 + 1) % 5 = 0) ∧
    (runFiveResults.get ⟨0, by decide⟩).wasMagicNumber = decide ((0 + 1) % 5 = 0) :=
  ⟨(c5_wildcard_cadence songsTwoKey1 {} oiZero obFalse rfl).2.2 5 (initState {})
      runFiveResults runFiveFinal (by rfl) rfl 4 (by decide),
    (c5_wildcard_cadence songsTwoKey1 {} oiZero obFalse rfl).2.2 5 (initState {})
      runFiveResults runFiveFinal (by rfl) rfl 0 (by decide)⟩

theorem mem_setAdd_self (s : List ℤ) (x : ℤ) : x ∈ setAdd s x := by
  unfold setAdd
  split
  · assumption
  · simp

theorem mem_setAdd_of_mem {s : List ℤ} {x y : ℤ} (h : y ∈ s) : y ∈ setAdd s x := by
  unfold setAdd
  split
  · exact h
  · exact List.mem_append.mpr (Or.inl h)

theorem mem_getUnplayed_key {songs : List Song} {played : List ℤ} {ck : ℕ} {x : Song}
    (h : x ∈ getUnplayed songs played { key := some ck }) :
    x ∈ songs ∧ x.key = ck ∧ x.id ∉ played := by
  unfold getUnplayed filterSongs at h
  simp only [] at h
  by_cases hp : 0 < played.length
  · rw [if_pos hp] at h
    obtain ⟨h1, h2⟩ := List.mem_filter.mp h
    obtain ⟨h3, h4⟩ := List.mem_filter.mp h1
    refine ⟨h3, by simpa using h4, ?_⟩
    simpa using h2
  · rw [if_neg hp] at h
    obtain ⟨h3, h4⟩ := List.mem_filter.mp h
    have hempty : played = [] := by
      cases played with
      | nil => rfl
      | cons a as => exact absurd (by simp) hp
    refine ⟨h3, by simpa using h4, ?_⟩
    rw [hempty]
    simp

theorem mem_getCompatibleCandidatesGo {songs : List Song} {played : List ℤ} {pool2 : ℕ} :
    ∀ (ks : List ℕ) (acc : List Song) (x : Song),
    x ∈ getCompatibleCandidatesGo songs played pool2 ks acc →
    x ∈ acc ∨ ∃ k ∈ ks, x ∈ getUnplayed songs played { key := some k } := by
  intro ks
  induction ks with
  | nil =>
    intro acc x h
    exact Or.inl h
  | cons k rest ih =>
    intro acc x h
    rw [getCompatibleCandidatesGo] at h
    split at h
    · rcases List.mem_append.mp h with h1 | h2
      · exact Or.inl h1
      · exact Or.inr ⟨k, List.mem_cons_self k rest, h2⟩
    · rcases ih _ x h with h1 | ⟨k2, hk2, hx⟩
      · rcases List.mem_append.mp h1 with h3 | h4
        · exact Or.inl h3
        · exact Or.inr ⟨k, List.mem_cons_self k rest, h4⟩
      · exact Or.inr ⟨k2, List.mem_cons_of_mem k hk2, hx⟩

theorem mem_getCompatibleCandidates {songs : List Song} {opts : Opts} {played : List ℤ}
    {ck : ℕ} {x : Song} (h : x ∈ getCompatibleCandidates songs opts played ck) :
    ∃ k, opts.minCompatibilityScore ≤ scoreCompatibility ck k ∧
      x ∈ getUnplayed songs played { key := some k } := by
  rw [getCompatibleCandidates] at h
  rcases mem_getCompatibleCandidatesGo _ _ x h with h1 | ⟨k, hk, hx⟩
  · exact absurd h1 (List.not_mem_nil x)
  · obtain ⟨_, hpred⟩ := List.mem_filter.mp hk
    exact ⟨k, by simpa using hpred, hx⟩

theorem scoreCandidates_mem {opts : Opts} {ck : ℕ} {cands : List Song} {s : Song} {sc : ℕ}
    (h : (s, sc) ∈ scoreCandidates opts ck cands) :
    s ∈ cands ∧ sc = scoreCompatibility ck s.key ∧ opts.minCompatibilityScore ≤ sc := by
  unfold scoreCandidates at h
  rw [mem_stableSort] at h
  obtain ⟨hmem, hpred⟩ := List.mem_filter.mp h
  obtain ⟨x, hx, heq⟩ := List.mem_map.mp hmem
  obtain ⟨rfl, rfl⟩ : x = s ∧ scoreCompatibility ck x.key = sc := by
    constructor
    · exact congrArg Prod.fst heq
    · exact congrArg Prod.snd heq
  exact ⟨hx, rfl, by simpa using hpred⟩

theorem scoreCandidates_length {opts : Opts} {ck : ℕ} {cands : List Song}
    (hall : ∀ x ∈ cands, opts.minCompatibilityScore ≤ scoreCompatibility ck x.key) :
    (scoreCandidates opts ck cands).length = cands.length := by
  unfold scoreCandidates
  rw [(stableSort_perm _ _).length_eq]
  rw [List.filter_eq_self.mpr ?hall]
  · exact List.length_map _ _
  case hall =>
    intro p hp
    obtain ⟨x, hx, rfl⟩ := List.mem_map.mp hp
    simpa using hall x hx

theorem scoreCompatibility_self {ck : ℕ} (h1 : 1 ≤ ck) (h2 : ck ≤ 12) :
    scoreCompatibility ck ck = 10 :=
  @key_cases1 (fun ck => scoreCompatibility ck ck = 10) (by decide) ck h1 h2

theorem nextKey_range {k : ℕ} (h1 : 1 ≤ k) (h2 : k ≤ 12) (d : Bool) :
    1 ≤ nextKey k d ∧ nextKey k d ≤ 12 := by
  unfold nextKey
  split <;> split <;> omega

theorem selectFromTopCandidates_shape {songs : List Song} {opts : Opts} {oi : IntOracle}
    {k : ℕ} {scored : List (Song × ℕ)} {s : Song} {k2 : ℕ}
    (h : selectFromTopCandidates songs opts oi k scored = .ok (s, k2)) :
    (scored.length = 0 ∧ s ∈ songs) ∨ (∃ sc, (s, sc) ∈ scored) := by
  rw [selectFromTopCandidates] at h
  by_cases h0 : scored.length = 0
  · rw [if_pos h0] at h
    cases hg : getChoice oi k songs with
    | error e =>
      rw [hg] at h
      exact Except.noConfusion h
    | ok a =>
      rw [hg] at h
      simp only [Except.ok.injEq, Prod.mk.injEq] at h
      exact Or.inl ⟨h0, h.1 ▸ getChoice_mem hg⟩
  · rw [if_neg h0] at h
    cases hg : getChoice oi k (scored.take opts.candidatePoolSize) with
    | error e =>
      rw [hg] at h
      exact Except.noConfusion h
    | ok p =>
      rw [hg] at h
      simp only [Except.ok.injEq, Prod.mk.injEq] at h
      refine Or.inr ⟨p.2, ?_⟩
      have hmem : p ∈ scored := List.take_subset _ _ (getChoice_mem hg)
      have : (s, p.2) = p := by
        rw [Prod.ext_iff]
        exact ⟨h.1.symm, rfl⟩
      rw [this]
      exact hmem

theorem selectNormal_shape {songs : List Song} {opts : Opts} {oi : IntOracle}
    {played : List ℤ} {ck : ℕ} {k : ℕ} {s : Song} {n : ℕ} {p2 : List ℤ} {k2 : ℕ}
    (h : selectNormal songs opts oi played ck k = .ok (s, n, p2, k2)) :
    p2 = (normalTiers songs opts played ck).2 ∧
    (((scoreCandidates opts ck (normalTiers songs opts played ck).1).length = 0 ∧
       s ∈ songs) ∨
     ∃ sc, (s, sc) ∈ scoreCandidates opts ck (normalTiers songs opts played ck).1) := by
  rw [selectNormal] at h
  cases hft : selectFromTopCandidates songs opts oi k
      (scoreCandidates opts ck (normalTiers songs opts played ck).1) with
  | error e =>
    rw [hft] at h
    exact Except.noConfusion h
  | ok v =>
    obtain ⟨s2, k3⟩ := v
    rw [hft] at h
    simp only [Except.ok.injEq, Prod.mk.injEq] at h
    obtain ⟨hs, _, hp, _⟩ := h
    subst hs
    exact ⟨hp.symm, selectFromTopCandidates_shape hft⟩

set_option maxHeartbeats 1000000 in
theorem normalTiers_AB {songs : List Song} {opts : Opts} {played : List ℤ} {ck : ℕ}
    (hAB : tierABNonempty songs opts played ck = true) :
    (normalTiers songs opts played ck).2 = played ∧
    (normalTiers songs opts played ck).1.length ≠ 0 ∧
    ∀ x ∈ (normalTiers songs opts played ck).1,
      x.id ∉ played ∧
      (x.key = ck ∨ opts.minCompatibilityScore ≤ scoreCompatibility ck x.key) := by
  by_cases h1 : (getUnplayed songs played { key := some ck }).length ≠ 0
  · rw [normalTiers, if_pos h1]
    refine ⟨rfl, h1, ?_⟩
    intro x hx
    obtain ⟨_, hkey, hid⟩ := mem_getUnplayed_key hx
    exact ⟨hid, Or.inl hkey⟩
  · have h2 : (getCompatibleCandidates songs opts played ck).length ≠ 0 := by
      rw [tierABNonempty, Bool.or_eq_true, decide_eq_true_eq, decide_eq_true_eq] at hAB
      exact hAB.resolve_left h1
    rw [normalTiers, if_neg h1, if_pos h2]
    refine ⟨rfl, h2, ?_⟩
    intro x hx
    obtain ⟨k, hk, hx2⟩ := mem_getCompatibleCandidates hx
    obtain ⟨_, hkey, hid⟩ := mem_getUnplayed_key hx2
    refine ⟨hid, Or.inr ?_⟩
    rw [hkey]
    exact hk

theorem selectTrack_fresh {songs : List Song} {opts : Opts} {oi : IntOracle}
    {ob : BoolOracle} {st : SelState} {r : SelectionResult} {st2 : SelState}
    (hmagic : opts.useMagicNumber = false)
    (hmin : opts.minCompatibilityScore ≤ 10)
    (hck1 : 1 ≤ st.currentKey) (hck2 : st.currentKey ≤ 12)
    (hAB : tierABNonempty songs opts st.played st.currentKey = true)
    (h : selectTrack songs opts oi ob st = .ok (r, st2)) :
    r.track.song.id ∉ st.played ∧ st2.played = setAdd st.played r.track.song.id ∧
    1 ≤ st2.currentKey ∧ st2.currentKey ≤ 12 := by
  have hmfalse : (opts.useMagicNumber && decide ((st.trackCount + 1) % 5 = 0)) = false := by
    rw [hmagic, Bool.false_and]
  cases hsel : selectNormal songs opts oi st.played st.currentKey st.rngK with
  | error e =>
    rw [selectTrack, hmfalse] at h
    simp only [Bool.false_eq_true, reduceIte, hsel] at h
    exact Except.noConfusion h
  | ok v =>
    obtain ⟨song, n, p2, k2⟩ := v
    rw [selectTrack_eq_of_normal hmfalse hsel] at h
    simp only [Except.ok.injEq, Prod.mk.injEq] at h
    have hr : r = postResult opts st ob song n := h.1.symm
    have hst2 : st2 = postState st ob song p2 k2 := h.2.symm
    have hsong : r.track.song = song := by rw [hr]; rfl
    obtain ⟨htp2, hprov⟩ := selectNormal_shape hsel
    obtain ⟨htiers2, htiersne, htiersmem⟩ := normalTiers_AB hAB
    have hall : ∀ x ∈ (normalTiers songs opts st.played st.currentKey).1,
        opts.minCompatibilityScore ≤ scoreCompatibility st.currentKey x.key := by
      intro x hx
      rcases (htiersmem x hx).2 with hkey | hge
      · rw [hkey, scoreCompatibility_self hck1 hck2]
        exact hmin
      · exact hge
    have hsclen : (scoreCandidates opts st.currentKey
        (normalTiers songs opts st.played st.currentKey).1).length ≠ 0 := by
      rw [scoreCandidates_length hall]
      exact htiersne
    have hsmem : song ∈ (normalTiers songs opts st.played st.currentKey).1 := by
      rcases hprov with ⟨hz, _⟩ | ⟨sc, hmem⟩
      · exact absurd hz hsclen
      · exact (scoreCandidates_mem hmem).1
    have hfresh : song.id ∉ st.played := (htiersmem song hsmem).1
    have hkeyrange := nextKey_range hck1 hck2 st.forward
    refine ⟨hsong ▸ hfresh, ?_, ?_, ?_⟩
    · rw [hst2, hsong]
      show setAdd p2 song.id = setAdd st.played song.id
      rw [htp2, htiers2]
    · rw [hst2]
      show 1 ≤ (if 1 < st.trackCount + 1 then nextKey st.currentKey st.forward
        else st.currentKey)
      split
      · exact hkeyrange.1
      · exact hck1
    · rw [hst2]
      show (if 1 < st.trackCount + 1 then nextKey st.currentKey st.forward
        else st.currentKey) ≤ 12
      split
      · exact hkeyrange.2
      · exact hck2

theorem runChecked_succ {songs : List Song} {opts : Opts} {oi : IntOracle}
    {ob : BoolOracle} {n : ℕ} {st : SelState} {ids : List ℤ} {s2 : SelState}
    (h : runChecked songs opts oi ob (n + 1) st = some (ids, s2)) :
    tierABNonempty songs opts st.played st.currentKey = true ∧
    ∃ r st2 rest, selectTrack songs opts oi ob st = .ok (r, st2) ∧
      runChecked songs opts oi ob n st2 = some (rest, s2) ∧
      ids = r.track.song.id :: rest := by
  simp only [runChecked] at h
  by_cases hAB : tierABNonempty songs opts st.played st.currentKey = true
  · rw [if_pos hAB] at h
    refine ⟨hAB, ?_⟩
    cases hsel : selectTrack songs opts oi ob st with
    | error e =>
      rw [hsel] at h
      exact Option.noConfusion h
    | ok v =>
      obtain ⟨r, st2⟩ := v
      rw [hsel] at h
      simp only [] at h
      cases hrec : runChecked songs opts oi ob n st2 with
      | none =>
        rw [hrec] at h
        exact Option.noConfusion h
      | some p =>
        obtain ⟨rest, s3⟩ := p
        rw [hrec] at h
        simp only [Option.some.injEq, Prod.mk.injEq] at h
        exact ⟨r, st2, rest, rfl, h.2 ▸ hrec, h.1.symm⟩
  · rw [if_neg hAB] at h
    exact Option.noConfusion h

theorem runChecked_nodup {songs : List Song} {opts : Opts} {oi : IntOracle}
    {ob : BoolOracle} (hmagic : opts.useMagicNumber = false)
    (hmin : opts.minCompatibilityScore ≤ 10) :
    ∀ (n : ℕ) (st : SelState) (ids : List ℤ) (s2 : SelState),
    runChecked songs opts oi ob n st = some (ids, s2) →
    1 ≤ st.currentKey → st.currentKey ≤ 12 →
    ids.Nodup ∧ ∀ x ∈ ids, x ∉ st.played := by
  intro n
  induction n with
  | zero =>
    intro st ids s2 h _ _
    simp only [runChecked, Option.some.injEq, Prod.mk.injEq] at h
    rw [h.1.symm]
    exact ⟨List.nodup_nil, by simp⟩
  | succ m ih =>
    intro st ids s2 h hck1 hck2
    obtain ⟨hAB, r, st2, rest, hsel, hrec, rfl⟩ := runChecked_succ h
    obtain ⟨hfresh, hplayed2, hck1b, hck2b⟩ :=
      selectTrack_fresh hmagic hmin hck1 hck2 hAB hsel
    obtain ⟨hnodup, hrestfresh⟩ := ih st2 rest s2 hrec hck1b hck2b
    constructor
    · refine List.nodup_cons.mpr ⟨?_, hnodup⟩
      intro hmem
      exact hrestfresh _ hmem (hplayed2 ▸ mem_setAdd_self st.played r.track.song.id)
    · intro x hx
      rcases List.mem_cons.mp hx with rfl | hx2
      · exact hfresh
      · intro hxp
        exact hrestfresh x hx2 (hplayed2 ▸ mem_setAdd_of_mem hxp)

/-- C1 counterexample: on the two-track catalogue with track 2 at the
    tritone of key 1 (score 1, below the default minimum of 5), with
    wildcard disabled and no manual reset, a run of N = 2 = catalogue-size
    consecutive selectTrack calls selects id 1 twice while id 2 is never
    selected: the tier-(c) fallback resets the catalogue on the second call
    although an unplayed track remains.  This refutes the claim as stated. -/
theorem c1_coverage_counterexample :
    (runSel songsTritone optsNoMagic oiZero obFalse 2 (initState optsNoMagic)).toOption.map
      (fun p => p.1.map (fun r => r.track.song.id)) = some [1, 1] ∧
    songIds songsTritone = [1, 2] := by
  constructor
  · decide
  · decide

/-- C1 amended: with wildcard disabled and no manual reset, as long as every
    call finds an unplayed track at its current key or at a key compatible
    with it at or above minCompatibilityScore (so no fallback tier resets
    the catalogue), the selected ids of the run are pairwise distinct - in
    particular no id is selected a second time while another id has never
    been selected.  The check is the runChecked guard; the counterexample
    shows the claim fails as soon as a fallback reset engages. -/
theorem c1_coverage_amended (songs : List Song) (opts : Opts) (oi : IntOracle)
    (ob : BoolOracle) (hmagic : opts.useMagicNumber = false)
    (hmin : opts.minCompatibilityScore ≤ 10) (n : ℕ) (ids : List ℤ) (s2 : SelState)
    (h : runChecked songs opts oi ob n (initState opts) = some (ids, s2)) :
    ids.Nodup := by
  have h1 : (1:ℕ) ≤ (initState opts).currentKey := le_refl 1
  have h2 : (initState opts).currentKey ≤ 12 := by
    show (1:ℕ) ≤ 12
    omega
  exact (runChecked_nodup hmagic hmin n (initState opts) ids s2 h h1 h2).1

/-- Witness for c1_coverage_amended: the checked two-call run on the
    two-track catalogue selects ids 1 and 2 without repetition. -/
theorem c1_coverage_amended_witness :
    runChecked songsTwoKey1 optsNoMagic oiZero obFalse 2 (initState optsNoMagic) =
      some ([1, 2], runCheckedTwoFinal) ∧
    ([1, 2] : List ℤ).Nodup :=
  ⟨by rfl, c1_coverage_amended songsTwoKey1 optsNoMagic oiZero obFalse rfl (by decide)
    2 [1, 2] runCheckedTwoFinal (by rfl)⟩

theorem cons_set_perm (x : α) (xs : List α) :
    ∀ (m : ℕ) (h : m < xs.length),
    List.Perm (xs.get ⟨m, h⟩ :: xs.set m x) (x :: xs) := by
  induction xs with
  | nil =>
    intro m h
    exact absurd h (by simp)
  | cons y ys ih =>
    intro m h
    cases m with
    | zero =>
      simp only [List.get_cons_zero, List.set_cons_zero]
      exact List.Perm.swap x y ys
    | succ m2 =>
      have hm : m2 < ys.length := by simpa using h
      simp only [List.get_cons_succ, List.set_cons_succ]
      exact (List.Perm.swap y (ys.get ⟨m2, hm⟩) (ys.set m2 x)).trans
        (((ih m2 hm).cons y).trans (List.Perm.swap x y ys))

theorem set_set_perm : ∀ (l : List α) (i j : ℕ) (hi : i < l.length) (hj : j < l.length),
    List.Perm ((l.set i (l.get ⟨j, hj⟩)).set j (l.get ⟨i, hi⟩)) l := by
  intro l
  induction l with
  | nil =>
    intro i j hi _
    exact absurd hi (by simp)
  | cons x xs ih =>
    intro i j hi hj
    cases i with
    | zero =>
      cases j with
      | zero =>
        simp only [List.get_cons_zero, List.set_cons_zero]
        exact List.Perm.refl _
      | succ m =>
        have hm : m < xs.length := by simpa using hj
        simp only [List.get_cons_zero, List.get_cons_succ, List.set_cons_zero,
          List.set_cons_succ]
        exact cons_set_perm x xs m hm
    | succ n =>
      cases j with
      | zero =>
        have hn : n < xs.length := by simpa using hi
        simp only [List.get_cons_zero, List.get_cons_succ, List.set_cons_zero,
          List.set_cons_succ]
        exact cons_set_perm x xs n hn
      | succ m =>
        have hn : n < xs.length := by simpa using hi
        have hm : m < xs.length := by simpa using hj
        simp only [List.get_cons_succ, List.set_cons_succ]
        exact (ih n m hn hm).cons x

theorem swapL_perm {l : List α} {i j : ℕ} (hi : i < l.length) (hj : j < l.length) :
    List.Perm (swapL l i j) l := by
  rw [swapL, dif_pos (And.intro hi hj)]
  exact set_set_perm l i j hi hj

theorem swapL_length (l : List α) (i j : ℕ) : (swapL l i j).length = l.length := by
  rw [swapL]
  split
  · simp
  · rfl

theorem shuffleAux_perm (oi : IntOracle) (ho : ∀ k m, oi k m ≤ m) :
    ∀ (i : ℕ) (l : List α) (k : ℕ), i < l.length →
    List.Perm (shuffleAux oi l i k).1 l := by
  intro i
  induction i with
  | zero =>
    intro l k _
    exact List.Perm.refl l
  | succ n ih =>
    intro l k hi
    rw [shuffleAux]
    have hjlt : oi k (n + 1) < l.length := lt_of_le_of_lt (ho k (n + 1)) hi
    have hswap := swapL_perm (l := l) hi hjlt
    have hlen := swapL_length l (n + 1) (oi k (n + 1))
    have hn : n < (swapL l (n + 1) (oi k (n + 1))).length := by
      rw [hlen]
      omega
    exact (ih _ (k + 1) hn).trans hswap

theorem shuffleO_perm (oi : IntOracle) (ho : ∀ k m, oi k m ≤ m) (l : List α) (k : ℕ) :
    List.Perm (shuffleO oi l k).1 l := by
  rw [shuffleO]
  cases l with
  | nil => exact List.Perm.refl _
  | cons x xs =>
    exact shuffleAux_perm oi ho ((x :: xs).length - 1) (x :: xs) k (by simp)

/-- C9 counterexample: with the legal count 2 on the two-element array
    [1, 1], getUniqueChoices succeeds and returns [1, 1], whose two elements
    are not pairwise distinct - the "unique" choices are distinct positions,
    not distinct values. -/
theorem c9_counterexample :
    (uniqueChoicesO oiZero ([1, 1] : List ℕ) 2 0).toOption.map Prod.fst = some [1, 1] ∧
    ¬ ([1, 1] : List ℕ).Nodup ∧
    (0 : ℤ) ≤ 2 ∧ (2 : ℤ) ≤ (([1, 1] : List ℕ).length : ℤ) := by
  refine ⟨by decide, by decide, by decide, by decide⟩

/-- C9 amended: getUniqueChoices fails with an argument error exactly when
    count exceeds the array length or is negative; for 0 <= count <= length
    it returns the first count elements of a Fisher-Yates permutation of the
    array (count = 0 giving the empty array), so the result picks count
    pairwise-distinct positions, and its elements are pairwise distinct
    whenever the input elements are - but not for inputs with duplicates,
    as the counterexample shows.  Index draws are assumed in range per the
    getInteger contract (its violation is the separate C4 bug). -/
theorem c9_uniqueChoices_spec {α : Type} (oi : IntOracle) (ho : ∀ k m, oi k m ≤ m)
    (count : ℤ) :
    (∀ (l : List α) (k : ℕ),
      ((l.length : ℤ) < count ∨ count < 0) ↔
        ∃ e, uniqueChoicesO oi l count k = .error e) ∧
    (∀ (l : List α) (k : ℕ), 0 ≤ count → count ≤ (l.length : ℤ) →
      ∃ res k2, uniqueChoicesO oi l count k = .ok (res, k2) ∧
        res.length = count.toNat ∧
        res = (shuffleO oi l k).1.take count.toNat ∧
        List.Perm (shuffleO oi l k).1 l ∧
        (l.Nodup → res.Nodup)) := by
  constructor
  · intro l k
    constructor
    · intro hbad
      rw [uniqueChoicesO]
      by_cases h1 : (l.length : ℤ) < count
      · rw [if_pos h1]
        exact ⟨_, rfl⟩
      · rw [if_neg h1, if_pos (hbad.resolve_left h1)]
        exact ⟨_, rfl⟩
    · intro hex
      by_contra hok
      push_neg at hok
      obtain ⟨e, he⟩ := hex
      rw [uniqueChoicesO, if_neg (by omega : ¬ (l.length : ℤ) < count),
        if_neg (by omega : ¬ count < 0)] at he
      exact Except.noConfusion he
  · intro l k h0 hle
    have hperm := shuffleO_perm oi ho l k
    have hlen : (shuffleO oi l k).1.length = l.length := hperm.length_eq
    refine ⟨(shuffleO oi l k).1.take count.toNat, (shuffleO oi l k).2, ?_, ?_, rfl,
      hperm, ?_⟩
    · rw [uniqueChoicesO, if_neg (by omega : ¬ (l.length : ℤ) < count),
        if_neg (by omega : ¬ count < 0)]
    · rw [List.length_take, hlen]
      omega
    · intro hnd
      exact ((hperm.nodup_iff.mpr hnd).sublist (List.take_sublist _ _))

/-- Witness for c9_uniqueChoices_spec: count 2 on the three-element array
    [10, 20, 30] succeeds with two elements of a permutation. -/
theorem c9_uniqueChoices_spec_witness :
    (0 : ℤ) ≤ 2 ∧ (2 : ℤ) ≤ (([10, 20, 30] : List ℕ).length : ℤ) ∧
    ∃ res k2, uniqueChoicesO oiZero ([10, 20, 30] : List ℕ) 2 0 = .ok (res, k2) ∧
      res.length = (2 : ℤ).toNat ∧
      res = (shuffleO oiZero ([10, 20, 30] : List ℕ) 0).1.take (2 : ℤ).toNat ∧
      List.Perm (shuffleO oiZero ([10, 20, 30] : List ℕ) 0).1 [10, 20, 30] ∧
      (([10, 20, 30] : List ℕ).Nodup → res.Nodup) :=
  ⟨by decide, by decide,
    (c9_uniqueChoices_spec oiZero (fun _ _ => Nat.zero_le _) 2).2 [10, 20, 30] 0
      (by decide) (by decide)⟩

end Kwyjibo
